import Mathlib

/-!
Verification of the DBF-to-Mongo batch import scripts
(`src/scripts/dbfToMongo.js` and the variant scripts `src/unnamed/part_001`,
`part_002`, `part_003`).

The JavaScript is embedded shallowly:
- a record is an ordered list of (field name, value) pairs;
- JavaScript scalar values are `JSValue`; the only numeric distinction the
  scripts ever make is NaN versus non-NaN, so valid numbers carry an `Int`;
- the destination collection is a list of sanitized records, with a
  per-record `accept` predicate modelling whether an insert succeeds or
  raises (duplicate key / validation error);
- asynchronous exceptions are `Except String`.
-/

/-- A JavaScript scalar value as produced by the DBF reader.  `nan` is the
number NaN; `num` is any other number (`typeof` both is "number"). -/
inductive JSValue where
  | str (s : String)
  | num (n : Int)
  | nan
  | boolean (b : Bool)
  | null
deriving DecidableEq

/-- A raw DBF record: ordered field-name/value pairs (the spec's RawRecord). -/
abbrev RawRecord := List (String × JSValue)

/-- `typeof value === "number"` for a `JSValue`. -/
def isNumberType : JSValue → Bool
  | JSValue.num _ => true
  | JSValue.nan => true
  | _ => false

/-- `isNaN(value)` restricted to values already known to be numbers
(the scripts guard the call with the `typeof` check, so no coercion occurs). -/
def jsIsNaN : JSValue → Bool
  | JSValue.nan => true
  | _ => false

/-- The value transformation applied to every field by every sanitizer
variant: `typeof value === "number" && isNaN(value) ? 0 : value`. -/
def sanitizeValue (v : JSValue) : JSValue :=
  if isNumberType v && jsIsNaN v then JSValue.num 0 else v

/-- The loop body of `sanitizeRecord` in `src/scripts/dbfToMongo.js`:
fields are visited in order and a field is written only when its name is not
already a property of the output (`!sanitized.hasOwnProperty(key)`); `seen`
is the list of names already written. -/
def sanitizeGo (seen : List String) : RawRecord → RawRecord
  | [] => []
  | (k, v) :: rest =>
    if k ∈ seen then sanitizeGo seen rest
    else (k, sanitizeValue v) :: sanitizeGo (k :: seen) rest

/-- `sanitizeRecord` of `src/scripts/dbfToMongo.js` (lines 40-48):
first occurrence of a duplicate field name wins. -/
def sanitizeRecord (record : RawRecord) : RawRecord :=
  sanitizeGo [] record

/-- One property assignment `obj[k] = v` in JavaScript object semantics:
an existing key keeps its position and gets the new value, a new key is
appended. -/
def setEntry : RawRecord → String → JSValue → RawRecord
  | [], k, v => [(k, v)]
  | (k0, v0) :: rest, k, v =>
    if k0 = k then (k0, v) :: rest else (k0, v0) :: setEntry rest k v

/-- `Object.fromEntries` assigns the entries left to right. -/
def fromEntriesAux (obj : RawRecord) : RawRecord → RawRecord
  | [] => obj
  | (k, v) :: rest => fromEntriesAux (setEntry obj k v) rest

/-- `Object.fromEntries(entries)`: later entries with the same key overwrite
earlier ones. -/
def fromEntries (entries : RawRecord) : RawRecord :=
  fromEntriesAux [] entries

/-- `sanitizeRecord` of `src/unnamed/part_001` lines 33-40 (identical in
`part_002` lines 31-38 and `part_003` lines 33-40):
`Object.fromEntries(Object.entries(record).map(([key, value]) => [key, …]))`. -/
def sanitizeRecordFE (record : RawRecord) : RawRecord :=
  fromEntries (record.map (fun kv => (kv.1, sanitizeValue kv.2)))

/-- First-occurrence field lookup (JavaScript property read on an object
built first-wins). -/
def getField : RawRecord → String → Option JSValue
  | [], _ => none
  | (k0, v0) :: rest, k => if k0 = k then some v0 else getField rest k

/-- Last-occurrence field lookup. -/
def getFieldLast : RawRecord → String → Option JSValue
  | [], _ => none
  | (k0, v0) :: rest, k =>
    match getFieldLast rest k with
    | some v => some v
    | none => if k0 = k then some v0 else none

/-- The field names of a record, in order. -/
def keys (r : RawRecord) : List String :=
  r.map Prod.fst

/-! ### Lemmas about the sanitizers -/

theorem sanitizeValue_ne_nan (v : JSValue) : sanitizeValue v ≠ JSValue.nan := by
  cases v <;> simp [sanitizeValue, isNumberType, jsIsNaN]

theorem sanitizeValue_of_ne_nan (v : JSValue) (h : v ≠ JSValue.nan) :
    sanitizeValue v = v := by
  cases v <;> simp_all [sanitizeValue, isNumberType, jsIsNaN]

theorem sanitizeGo_getField (l : RawRecord) :
    ∀ (seen : List String) (k : String),
      getField (sanitizeGo seen l) k
        = if k ∈ seen then none else (getField l k).map sanitizeValue := by
  induction l with
  | nil => intro seen k; simp [sanitizeGo, getField]
  | cons kv rest ih =>
    intro seen k
    obtain ⟨k0, v0⟩ := kv
    by_cases hmem : k0 ∈ seen
    · rw [show sanitizeGo seen ((k0, v0) :: rest) = sanitizeGo seen rest by
        simp [sanitizeGo, hmem]]
      rw [ih seen k]
      by_cases hk : k ∈ seen
      · simp [hk]
      · have hne : k0 ≠ k := fun he => hk (he ▸ hmem)
        simp [hk, getField, hne, Ne.symm hne]
    · rw [show sanitizeGo seen ((k0, v0) :: rest)
          = (k0, sanitizeValue v0) :: sanitizeGo (k0 :: seen) rest by
        simp [sanitizeGo, hmem]]
      by_cases hk : k = k0
      · subst hk
        simp [getField, hmem]
      · have hne : k0 ≠ k := Ne.symm hk
        rw [show getField ((k0, sanitizeValue v0) :: sanitizeGo (k0 :: seen) rest) k
            = getField (sanitizeGo (k0 :: seen) rest) k by simp [getField, hne]]
        rw [ih (k0 :: seen) k]
        by_cases hks : k ∈ seen
        · simp [hks, List.mem_cons, hk]
        · simp [List.mem_cons, hk, hks, getField, hne, Ne.symm hne]

theorem sanitizeRecord_getField (r : RawRecord) (k : String) :
    getField (sanitizeRecord r) k = (getField r k).map sanitizeValue := by
  rw [sanitizeRecord, sanitizeGo_getField]
  simp

theorem sanitizeGo_keys_nodup (l : RawRecord) :
    ∀ seen : List String,
      (keys (sanitizeGo seen l)).Nodup ∧ ∀ k ∈ keys (sanitizeGo seen l), k ∉ seen := by
  induction l with
  | nil => intro seen; simp [sanitizeGo, keys]
  | cons kv rest ih =>
    intro seen
    obtain ⟨k0, v0⟩ := kv
    by_cases hmem : k0 ∈ seen
    · rw [show sanitizeGo seen ((k0, v0) :: rest) = sanitizeGo seen rest by
        simp [sanitizeGo, hmem]]
      exact ih seen
    · rw [show sanitizeGo seen ((k0, v0) :: rest)
          = (k0, sanitizeValue v0) :: sanitizeGo (k0 :: seen) rest by
        simp [sanitizeGo, hmem]]
      obtain ⟨hnd, hfresh⟩ := ih (k0 :: seen)
      constructor
      · simp only [keys, List.map_cons, List.nodup_cons]
        refine ⟨fun hk0 => ?_, hnd⟩
        exact hfresh k0 hk0 (List.mem_cons_self _ _)
      · intro k hk
        simp only [keys, List.map_cons, List.mem_cons] at hk
        rcases hk with hk | hk
        · exact hk ▸ hmem
        · intro hks
          exact hfresh k hk (List.mem_cons_of_mem _ hks)

theorem sanitizeRecord_keys_nodup (r : RawRecord) :
    (keys (sanitizeRecord r)).Nodup :=
  (sanitizeGo_keys_nodup r []).1

theorem getField_setEntry (obj : RawRecord) (k : String) (v : JSValue) (k2 : String) :
    getField (setEntry obj k v) k2 = if k = k2 then some v else getField obj k2 := by
  induction obj with
  | nil =>
    by_cases hk : k = k2 <;> simp [setEntry, getField, hk]
  | cons kv rest ih =>
    obtain ⟨k0, v0⟩ := kv
    by_cases h0 : k0 = k
    · subst h0
      by_cases hk : k0 = k2 <;> simp [setEntry, getField, hk]
    · rw [show setEntry ((k0, v0) :: rest) k v = (k0, v0) :: setEntry rest k v by
        simp [setEntry, h0]]
      by_cases hk : k0 = k2
      · subst hk
        have : k ≠ k0 := Ne.symm h0
        simp [getField, this]
      · simp [getField, hk, ih]

theorem keys_setEntry (obj : RawRecord) (k : String) (v : JSValue) :
    keys (setEntry obj k v) = if k ∈ keys obj then keys obj else keys obj ++ [k] := by
  induction obj with
  | nil => simp [setEntry, keys]
  | cons kv rest ih =>
    obtain ⟨k0, v0⟩ := kv
    by_cases h0 : k0 = k
    · subst h0
      simp [setEntry, keys]
    · rw [show setEntry ((k0, v0) :: rest) k v = (k0, v0) :: setEntry rest k v by
        simp [setEntry, h0]]
      simp only [keys, List.map_cons] at ih ⊢
      rw [ih]
      by_cases hmem : k ∈ List.map Prod.fst rest
      · simp [hmem, List.mem_cons, Ne.symm h0]
      · simp [hmem, List.mem_cons, Ne.symm h0]

theorem keys_setEntry_nodup (obj : RawRecord) (k : String) (v : JSValue)
    (h : (keys obj).Nodup) : (keys (setEntry obj k v)).Nodup := by
  rw [keys_setEntry]
  by_cases hmem : k ∈ keys obj
  · simpa [hmem]
  · simp only [hmem, if_false]
    simpa [List.nodup_append] using ⟨h, hmem⟩

theorem fromEntriesAux_getField (l : RawRecord) :
    ∀ (obj : RawRecord) (k : String),
      getField (fromEntriesAux obj l) k
        = match getFieldLast l k with
          | some v => some v
          | none => getField obj k := by
  induction l with
  | nil => intro obj k; simp [fromEntriesAux, getFieldLast]
  | cons kv rest ih =>
    intro obj k
    obtain ⟨k0, v0⟩ := kv
    rw [show fromEntriesAux obj ((k0, v0) :: rest) = fromEntriesAux (setEntry obj k0 v0) rest
        from rfl]
    rw [ih (setEntry obj k0 v0) k]
    cases hlast : getFieldLast rest k with
    | some v => simp [getFieldLast, hlast]
    | none =>
      rw [getField_setEntry]
      by_cases hk : k0 = k <;> simp [getFieldLast, hlast, hk]

theorem fromEntriesAux_keys_nodup (l : RawRecord) :
    ∀ obj : RawRecord, (keys obj).Nodup → (keys (fromEntriesAux obj l)).Nodup := by
  induction l with
  | nil => intro obj h; simpa [fromEntriesAux]
  | cons kv rest ih =>
    intro obj h
    obtain ⟨k0, v0⟩ := kv
    exact ih (setEntry obj k0 v0) (keys_setEntry_nodup obj k0 v0 h)

theorem getFieldLast_map_sanitize (r : RawRecord) (k : String) :
    getFieldLast (r.map (fun kv => (kv.1, sanitizeValue kv.2))) k
      = (getFieldLast r k).map sanitizeValue := by
  induction r with
  | nil => simp [getFieldLast]
  | cons kv rest ih =>
    obtain ⟨k0, v0⟩ := kv
    simp only [List.map_cons, getFieldLast, ih]
    cases hlast : getFieldLast rest k with
    | some v => simp
    | none =>
      by_cases hk : k0 = k <;> simp [hk]

theorem sanitizeRecordFE_getField (r : RawRecord) (k : String) :
    getField (sanitizeRecordFE r) k = (getFieldLast r k).map sanitizeValue := by
  rw [sanitizeRecordFE, fromEntries, fromEntriesAux_getField, getFieldLast_map_sanitize]
  cases getFieldLast r k <;> simp [getField]

theorem sanitizeRecordFE_keys_nodup (r : RawRecord) :
    (keys (sanitizeRecordFE r)).Nodup :=
  fromEntriesAux_keys_nodup _ [] (by simp [keys])

/-! ### The batch loaders

The destination collection is a list of sanitized records.  `accept r`
models whether the destination accepts an individual document `r` (an
insert of a rejected document raises a write error). -/

/-- A sanitized record, as sent to the destination. -/
abbrev SRecord := RawRecord

/-- `model.insertMany(chunk, ordered false)` (`src/unnamed/part_003`
line 109): every document of the chunk is attempted, the accepted ones are
inserted; if any document was rejected the call resolves with a bulk-write
error after attempting all of them, otherwise it resolves with the inserted
documents (one per chunk element). -/
def insertUnordered (accept : SRecord → Bool) (dest : List SRecord)
    (chunk : List SRecord) : List SRecord × Except String Nat :=
  (dest ++ chunk.filter accept,
   if chunk.all accept then Except.ok chunk.length else Except.error "BulkWriteError")

/-- The chunk loop of `processFile` in `src/unnamed/part_003` lines 105-115:
each chunk is written with `insertMany(…, ordered false)` inside
`try`/`catch`; on success `insertedCount` advances by the result length, on
failure the error is logged and the loop continues with the next chunk. -/
def loadChunks (accept : SRecord → Bool) (dest : List SRecord) (inserted : Nat) :
    List (List SRecord) → List SRecord × Nat
  | [] => (dest, inserted)
  | c :: cs =>
    match insertUnordered accept dest c with
    | (d, Except.ok n) => loadChunks accept d (inserted + n) cs
    | (d, Except.error _) => loadChunks accept d inserted cs

/-- The per-record loop of `processFile` in `src/scripts/dbfToMongo.js`
lines 121-132 (and `src/unnamed/part_001` lines 108-117): each record is
inserted with `model.create` inside `try`/`catch`; a successful insert
advances `insertedCount`, a failed one is logged and skipped. -/
def loadRecords (accept : SRecord → Bool) (dest : List SRecord) (inserted : Nat) :
    List SRecord → List SRecord × Nat
  | [] => (dest, inserted)
  | r :: rs =>
    if accept r then loadRecords accept (dest ++ [r]) (inserted + 1) rs
    else loadRecords accept dest inserted rs

/-- `model.insertMany(chunk)` with the default ordered mode
(`src/unnamed/part_002` line 103): documents are inserted in order until
the first rejected one, which makes the call raise. -/
def insertOrdered (accept : SRecord → Bool) (dest : List SRecord) :
    List SRecord → List SRecord × Except String Nat
  | [] => (dest, Except.ok 0)
  | r :: rs =>
    if accept r then
      match insertOrdered accept (dest ++ [r]) rs with
      | (d, Except.ok n) => (d, Except.ok (n + 1))
      | (d, Except.error e) => (d, Except.error e)
    else (dest, Except.error "WriteError")

/-- The chunk loop of `importDbfsData` in `src/unnamed/part_002` lines
99-106: the `insertMany` call is not wrapped in `try`/`catch`, so a failed
chunk raises out of the loop (the exception reaches the script's top-level
handler, which exits the process with code 1). -/
def loadChunksOrdered (accept : SRecord → Bool) (dest : List SRecord) (inserted : Nat) :
    List (List SRecord) → Except String (List SRecord × Nat)
  | [] => Except.ok (dest, inserted)
  | c :: cs =>
    match insertOrdered accept dest c with
    | (d, Except.ok n) => loadChunksOrdered accept d (inserted + n) cs
    | (_, Except.error e) => Except.error e

/-- `records.slice(i, i + C)` chunking of the batch loaders
(`for (let i = 0; i < records.length; i += batchSize)` with
`batchSize = 1000`).  Faithful to the source loop for every `C ≥ 1`; the
source loop does not terminate for `C = 0`, so the `C = 0` case of this
total function is irrelevant. -/
def chunksOf (C : Nat) : List α → List (List α)
  | [] => []
  | x :: xs => (x :: xs.take (C - 1)) :: chunksOf C (xs.drop (C - 1))
termination_by l => l.length
decreasing_by simp [List.length_drop]; omega

/-! ### Lemmas about the loaders -/


theorem chunksOf_flatten (C : Nat) (l : List α) : (chunksOf C l).flatten = l := by
  induction l using chunksOf.induct C with
  | case1 => simp [chunksOf]
  | case2 x xs ih =>
    rw [chunksOf]
    simp only [List.flatten_cons, ih]
    simp [List.cons_append, List.take_append_drop]

theorem loadChunks_cons (accept : SRecord → Bool) (dest : List SRecord) (n : Nat)
    (c : List SRecord) (cs : List (List SRecord)) :
    loadChunks accept dest n (c :: cs)
      = if c.all accept
        then loadChunks accept (dest ++ c.filter accept) (n + c.length) cs
        else loadChunks accept (dest ++ c.filter accept) n cs := by
  rw [loadChunks, insertUnordered]
  by_cases hall : c.all accept <;> simp [hall]

theorem loadChunks_fst (accept : SRecord → Bool) (cs : List (List SRecord)) :
    ∀ (dest : List SRecord) (n : Nat),
      (loadChunks accept dest n cs).1 = dest ++ cs.flatten.filter accept := by
  induction cs with
  | nil => intro dest n; simp [loadChunks]
  | cons c rest ih =>
    intro dest n
    rw [loadChunks_cons]
    by_cases hall : c.all accept
    · rw [if_pos hall, ih]
      simp [List.filter_append]
    · rw [if_neg hall, ih]
      simp [List.filter_append]

theorem loadRecords_fst (accept : SRecord → Bool) (rs : List SRecord) :
    ∀ (dest : List SRecord) (n : Nat),
      (loadRecords accept dest n rs).1 = dest ++ rs.filter accept := by
  induction rs with
  | nil => intro dest n; simp [loadRecords]
  | cons r rest ih =>
    intro dest n
    by_cases hr : accept r
    · rw [loadRecords, if_pos hr, ih]
      simp [List.filter_cons, hr]
    · rw [loadRecords, if_neg hr, ih]
      simp [List.filter_cons, hr]

theorem loadRecords_snd (accept : SRecord → Bool) (rs : List SRecord) :
    ∀ (dest : List SRecord) (n : Nat),
      (loadRecords accept dest n rs).2 = n + rs.countP accept := by
  induction rs with
  | nil => intro dest n; simp [loadRecords]
  | cons r rest ih =>
    intro dest n
    by_cases hr : accept r
    · rw [loadRecords, if_pos hr, ih, List.countP_cons]
      simp only [hr, if_true]
      omega
    · rw [loadRecords, if_neg hr, ih, List.countP_cons]
      simp [hr]

/-- The count accumulated by the unordered chunk loop: the summed length of
the chunks whose every record was accepted (a partially failed chunk
contributes nothing to `insertedCount`, even though its accepted records
were written). -/
def okChunkCount (accept : SRecord → Bool) : List (List SRecord) → Nat
  | [] => 0
  | c :: cs => (if c.all accept then c.length else 0) + okChunkCount accept cs

theorem loadChunks_snd (accept : SRecord → Bool) (cs : List (List SRecord)) :
    ∀ (dest : List SRecord) (n : Nat),
      (loadChunks accept dest n cs).2 = n + okChunkCount accept cs := by
  induction cs with
  | nil => intro dest n; simp [loadChunks, okChunkCount]
  | cons c rest ih =>
    intro dest n
    rw [loadChunks_cons]
    by_cases hall : c.all accept
    · rw [if_pos hall, ih, okChunkCount, if_pos hall]
      omega
    · rw [if_neg hall, ih, okChunkCount, if_neg hall]
      omega

theorem okChunkCount_le (accept : SRecord → Bool) (cs : List (List SRecord)) :
    okChunkCount accept cs ≤ cs.flatten.length := by
  induction cs with
  | nil => simp [okChunkCount]
  | cons c rest ih =>
    by_cases hall : c.all accept
    · rw [okChunkCount, if_pos hall]
      simp only [List.flatten_cons, List.length_append]
      omega
    · rw [okChunkCount, if_neg hall]
      simp only [List.flatten_cons, List.length_append]
      omega

theorem okChunkCount_eq_iff (accept : SRecord → Bool) (cs : List (List SRecord)) :
    okChunkCount accept cs = cs.flatten.length ↔ ∀ r ∈ cs.flatten, accept r = true := by
  induction cs with
  | nil => simp [okChunkCount]
  | cons c rest ih =>
    simp only [List.flatten_cons, List.length_append, List.mem_append]
    by_cases hall : c.all accept
    · rw [okChunkCount, if_pos hall]
      constructor
      · intro h r hr
        rcases hr with hr | hr
        · exact List.all_eq_true.mp hall r hr
        · exact ih.mp (by omega) r hr
      · intro h
        have h2 : okChunkCount accept rest = rest.flatten.length :=
          ih.mpr fun r hr => h r (Or.inr hr)
        omega
    · rw [okChunkCount, if_neg hall]
      have hcne : c ≠ [] := by rintro rfl; simp at hall
      have hlen : 1 ≤ c.length := List.length_pos.mpr hcne
      have hle := okChunkCount_le accept rest
      constructor
      · intro h
        omega
      · intro h
        exfalso
        have hex : ∃ r ∈ c, ¬ accept r = true := by
          rw [List.all_eq_true] at hall
          push_neg at hall
          exact hall
        obtain ⟨r, hr, hrej⟩ := hex
        exact hrej (h r (Or.inl hr))

/-- A chunk holding a rejected record makes the ordered `insertMany` raise. -/
theorem insertOrdered_error (accept : SRecord → Bool) (c : List SRecord)
    (h : c.all accept = false) :
    ∀ dest : List SRecord, ∃ d e, insertOrdered accept dest c = (d, Except.error e) := by
  induction c with
  | nil => simp at h
  | cons r rest ih =>
    intro dest
    by_cases hr : accept r
    · have hrest : rest.all accept = false := by
        rw [List.all_cons, hr] at h
        simpa using h
      obtain ⟨d, e, hde⟩ := ih hrest (dest ++ [r])
      refine ⟨d, e, ?_⟩
      rw [insertOrdered, if_pos hr, hde]
    · exact ⟨dest, "WriteError", by rw [insertOrdered, if_neg hr]⟩

/-! ### Per-(site, record-type) file processing

`fsys` maps an archive path to its contents: absent (`none`) models
`fs.existsSync` false; `some (Except.error e)` models an archive whose
`DBFFile.open`/`readRecords` raises; `some (Except.ok records)` a readable
archive. -/

/-- The per-pair import outcome (the spec's ImportOutcome): source count,
inserted count, whether the archive was missing, and how many records were
not inserted because of write errors. -/
structure Outcome where
  sourceCount : Nat
  insertedCount : Nat
  missingArchive : Bool
  insertFailures : Nat
deriving DecidableEq

/-- The file system visible to the scripts, restricted to the DBF archives. -/
abbrev FileSystem := List (String × Except String (List RawRecord))

def lookupFS (fsys : FileSystem) (p : String) : Option (Except String (List RawRecord)) :=
  (fsys.find? (fun e => decide (e.1 = p))).map Prod.snd

/-- `processFile` of `src/scripts/dbfToMongo.js` lines 101-140: when the
archive is missing it warns, logs and returns with the destination
untouched; otherwise it opens the archive (which may raise, uncaught
here), runs `model.deleteMany()` (the destination becomes empty), reads
all records, and inserts them one by one through the sanitizer
(`loadRecords`).  Returns the final destination contents and the outcome. -/
def processFile (fsys : FileSystem) (accept : SRecord → Bool) (dest : List SRecord)
    (filePath : String) : Except String (List SRecord × Outcome) :=
  match lookupFS fsys filePath with
  | none => Except.ok (dest, ⟨0, 0, true, 0⟩)
  | some (Except.error e) => Except.error e
  | some (Except.ok records) =>
    let sanitized := records.map sanitizeRecord
    let loaded := loadRecords accept [] 0 sanitized
    Except.ok (loaded.1, ⟨records.length, loaded.2, false,
      sanitized.countP (fun r => ! accept r)⟩)

/-- `processFile` of `src/unnamed/part_003` lines 78-119: same shape, but
records are sanitized with the `fromEntries` sanitizer and written in
chunks of 1000 with unordered `insertMany` (`loadChunks`). -/
def processFileBatched (fsys : FileSystem) (accept : SRecord → Bool) (dest : List SRecord)
    (filePath : String) : Except String (List SRecord × Outcome) :=
  match lookupFS fsys filePath with
  | none => Except.ok (dest, ⟨0, 0, true, 0⟩)
  | some (Except.error e) => Except.error e
  | some (Except.ok records) =>
    let sanitized := records.map sanitizeRecordFE
    let loaded := loadChunks accept [] 0 (chunksOf 1000 sanitized)
    Except.ok (loaded.1, ⟨records.length, loaded.2, false,
      sanitized.length - loaded.2⟩)

/-! ### The error log (`src/scripts/dbfToMongo.js` lines 20-25) -/

/-- The `error.log` append-only sink; `writable` models whether
`fs.appendFileSync` succeeds (false: e.g. permission denied or disk full). -/
structure ErrorSink where
  lines : List String
  writable : Bool
deriving DecidableEq

/-- `fs.appendFileSync(ERROR_LOG_FILE, line)`: appends or raises. -/
def appendFileSync (sink : ErrorSink) (line : String) : Except String ErrorSink :=
  if sink.writable then Except.ok ⟨sink.lines ++ [line], sink.writable⟩
  else Except.error "EACCES"

/-- `logError` of `src/scripts/dbfToMongo.js` lines 23-25: one call to
`fs.appendFileSync` with the timestamped line; there is no `try`/`catch`
around it, so a sink failure propagates to the caller. -/
def logError (now message : String) (sink : ErrorSink) : Except String ErrorSink :=
  appendFileSync sink (now ++ " - " ++ message ++ "\n")

/-! ### The orchestrator (`importDbfsData` of `src/scripts/dbfToMongo.js`)

The environment collects everything the run depends on: the connection
string (`MONGO_URI`/`MONGO_URI_DEV`), whether `mongoose.connect` succeeds,
which site directories exist, which model modules load, the archives, and
the destination's per-record accept behaviour. -/

structure Env where
  mongoUri : Option String
  connectOk : Bool
  dirExists : String → Bool
  modelOk : String → String → Bool
  fsys : FileSystem
  accept : SRecord → Bool

/-- The fixed site list of `importDbfsData` (lines 146-149). -/
def folders : List String :=
  ["AVB", "AW", "DQ", "FMB", "HD", "KONE", "KOUMAC", "LD",
   "LE_BROUSSARD", "MEARE", "PAITA_BRICOLAGE", "QC", "SITEC", "VKP"]

/-- The fixed record-type order (the `models` object, lines 167-175) with
the archive filename of each (the `fileMap`, lines 179-187). -/
def fileMap : List (String × String) :=
  [("article", "article.dbf"), ("classnum", "classes.dbf"),
   ("fournisseur", "fourniss.dbf"), ("client", "clients.dbf"),
   ("facture", "facture.dbf"), ("factureDetail", "detail.dbf"),
   ("tier", "tiers.dbf")]

/-- What a run accumulates: per-pair outcomes (the spec's RunSummary), the
site directories entered, and the archives opened. -/
structure RunTrace where
  summary : List (String × String × Outcome)
  visited : List String
  opened : List String
deriving DecidableEq

/-- One (site, record type) iteration of the inner loop (lines 177-191):
skipped when `loadModel` returned null, otherwise `processFile` runs on the
pair's archive path.  Each pair has its own destination collection, so the
loader starts from that collection alone; an exception from `processFile`
propagates. -/
def processPair (env : Env) (folder : String) (tr : RunTrace) (ft : String × String) :
    Except String RunTrace :=
  if env.modelOk folder ft.1 then
    match processFile env.fsys env.accept [] (folder ++ "/" ++ ft.2) with
    | Except.error e => Except.error e
    | Except.ok (_, outcome) =>
      Except.ok ⟨tr.summary ++ [(folder, ft.1, outcome)], tr.visited,
        tr.opened ++ (if outcome.missingArchive then []
                      else [folder ++ "/" ++ ft.2])⟩
  else Except.ok tr

/-- The inner loop over record types for one site. -/
def processPairs (env : Env) (folder : String) (tr : RunTrace) :
    List (String × String) → Except String RunTrace
  | [] => Except.ok tr
  | ft :: fts =>
    match processPair env folder tr ft with
    | Except.error e => Except.error e
    | Except.ok tr2 => processPairs env folder tr2 fts

/-- The outer loop over sites (lines 155-192): a missing site directory is
warned about and skipped (`continue`); otherwise the site is entered and
its record types processed. -/
def processFolders (env : Env) (tr : RunTrace) : List String → Except String RunTrace
  | [] => Except.ok tr
  | f :: fs =>
    if env.dirExists f then
      match processPairs env f ⟨tr.summary, tr.visited ++ [f], tr.opened⟩ fileMap with
      | Except.error e => Except.error e
      | Except.ok tr2 => processFolders env tr2 fs
    else processFolders env tr fs

/-- The observable result of one process run. -/
structure RunResult where
  exitCode : Nat
  summary : List (String × String × Outcome)
  visited : List String
  opened : List String
  criticalLogged : Bool
deriving DecidableEq

/-- `importDbfsData` (lines 143-203) together with the startup
configuration check (lines 13-18) and `connectDB` (lines 28-37):
- no connection string: `process.exit(1)` before anything runs;
- `mongoose.connect` fails: `connectDB` catches and `process.exit(1)`;
- otherwise the site loop runs; an exception escaping it is caught, logged
  as a critical error, and the `finally` block's `process.exit()` ends the
  process with the default exit code 0.
The site list is a parameter so that runs over different lists can be
compared; the script itself always passes `folders`. -/
def importDbfsData (env : Env) (siteFolders : List String) : RunResult :=
  match env.mongoUri with
  | none => ⟨1, [], [], [], false⟩
  | some _ =>
    if env.connectOk then
      match processFolders env ⟨[], [], []⟩ siteFolders with
      | Except.ok tr => ⟨0, tr.summary, tr.visited, tr.opened, false⟩
      | Except.error _ => ⟨0, [], [], [], true⟩
    else ⟨1, [], [], [], false⟩

/-! ### Lemmas about the orchestrator -/

theorem processFolders_skip (env : Env) (zz : String) (h : env.dirExists zz = false) :
    ∀ (l1 : List String) (tr : RunTrace) (l2 : List String),
      processFolders env tr (l1 ++ zz :: l2) = processFolders env tr (l1 ++ l2) := by
  intro l1
  induction l1 with
  | nil =>
    intro tr l2
    simp only [List.nil_append]
    rw [processFolders, if_neg (by simp [h])]
  | cons f fs ih =>
    intro tr l2
    simp only [List.cons_append]
    rw [processFolders, processFolders]
    by_cases hf : env.dirExists f
    · rw [if_pos hf, if_pos hf]
      cases processPairs env f ⟨tr.summary, tr.visited ++ [f], tr.opened⟩ fileMap with
      | error e => rfl
      | ok tr2 => exact ih tr2 l2
    · rw [if_neg hf, if_neg hf]
      exact ih tr l2

theorem processPairs_summary (env : Env) (f : String) :
    ∀ (fts : List (String × String)) (tr tr2 : RunTrace),
      processPairs env f tr fts = Except.ok tr2 →
      ∀ e ∈ tr2.summary, e ∈ tr.summary ∨ e.1 = f := by
  intro fts
  induction fts with
  | nil =>
    intro tr tr2 h e he
    rw [processPairs] at h
    cases h
    exact Or.inl he
  | cons ft rest ih =>
    intro tr tr2 h e he
    rw [processPairs] at h
    cases hp : processPair env f tr ft with
    | error er => rw [hp] at h; cases h
    | ok tr1 =>
      rw [hp] at h
      rcases ih tr1 tr2 h e he with h1 | h1
      · rw [processPair] at hp
        by_cases hm : env.modelOk f ft.1
        · rw [if_pos hm] at hp
          cases hpf : processFile env.fsys env.accept [] (f ++ "/" ++ ft.2) with
          | error er => rw [hpf] at hp; cases hp
          | ok pr =>
            rw [hpf] at hp
            obtain ⟨d, oc⟩ := pr
            cases hp
            rcases List.mem_append.mp h1 with h2 | h2
            · exact Or.inl h2
            · right
              simp only [List.mem_singleton] at h2
              rw [h2]
        · rw [if_neg hm] at hp
          cases hp
          exact Or.inl h1
      · exact Or.inr h1

theorem processFolders_summary (env : Env) :
    ∀ (fs : List String) (tr tr2 : RunTrace),
      processFolders env tr fs = Except.ok tr2 →
      ∀ e ∈ tr2.summary, e ∈ tr.summary ∨ env.dirExists e.1 = true := by
  intro fs
  induction fs with
  | nil =>
    intro tr tr2 h e he
    rw [processFolders] at h
    cases h
    exact Or.inl he
  | cons f rest ih =>
    intro tr tr2 h e he
    rw [processFolders] at h
    by_cases hf : env.dirExists f
    · rw [if_pos hf] at h
      cases hp : processPairs env f ⟨tr.summary, tr.visited ++ [f], tr.opened⟩ fileMap with
      | error er => rw [hp] at h; cases h
      | ok tr1 =>
        rw [hp] at h
        rcases ih tr1 tr2 h e he with h1 | h1
        · rcases processPairs_summary env f fileMap _ tr1 hp e h1 with h2 | h2
          · exact Or.inl h2
          · right
            rw [h2]
            exact hf
        · exact Or.inr h1
    · rw [if_neg hf] at h
      exact ih tr tr2 h e he

/-! ### Concrete data used by witnesses -/

/-- A record the witness destination rejects. -/
def rejRecord : SRecord := [("A", JSValue.num 1)]

/-- A record the witness destination accepts. -/
def okRecord : SRecord := [("B", JSValue.num 2)]

/-- A destination that rejects exactly `rejRecord`. -/
def rejAccept : SRecord → Bool := fun r => ! decide (r = rejRecord)

/-- A run environment for witnesses: connected, every site directory except
"ZZ" present, every model loadable, no archives, accepting destination. -/
def envA : Env :=
  ⟨some "mongodb://localhost", true, fun s => ! decide (s = "ZZ"),
   fun _ _ => true, [], fun _ => true⟩

/-- A run environment whose only archive raises when opened. -/
def envB : Env :=
  ⟨some "mongodb://localhost", true, fun _ => true, fun _ _ => true,
   [("AVB/article.dbf", Except.error "open failed")], fun _ => true⟩

/-- A run environment with no connection string configured. -/
def envC : Env :=
  ⟨none, true, fun _ => true, fun _ _ => true, [], fun _ => true⟩

/-! ### The claims -/

/-- C1 counterexample: in the `src/unnamed/part_002` variant, which the
claim covers, the chunk insert is not wrapped in `try`/`catch` and uses
ordered `insertMany`: a write failure in the first chunk raises out of the
chunk loop, so the second chunk is never attempted and the load aborts —
refuting "a chunk-level write failure never aborts the load or the run". -/
theorem chunk_failure_abort_cex :
    loadChunksOrdered rejAccept [] 0 [[rejRecord], [okRecord]]
      = Except.error "WriteError" := by
  rfl

/-- C1 (amended): in the per-record variant (`src/scripts/dbfToMongo.js`,
`part_001`) and the unordered-chunk variant (`part_003`) a write failure is
caught, the failed records are not counted as inserted, and the load
continues with the remaining records and chunks; in the `part_002` variant
the chunk insert is unguarded and a failed chunk aborts the load (and, via
the script's top-level handler, the run). -/
theorem write_failure_tolerance_amended (accept : SRecord → Bool)
    (dest : List SRecord) (n : Nat) (r : SRecord) (rs : List SRecord)
    (c : List SRecord) (cs : List (List SRecord))
    (hr : accept r = false) (hc : c.all accept = false) :
    loadRecords accept dest n (r :: rs) = loadRecords accept dest n rs
    ∧ loadChunks accept dest n (c :: cs)
        = loadChunks accept (dest ++ c.filter accept) n cs
    ∧ ∃ e, loadChunksOrdered accept dest n (c :: cs) = Except.error e := by
  refine ⟨?_, ?_, ?_⟩
  · rw [loadRecords, if_neg (by simp [hr])]
  · rw [loadChunks_cons, if_neg (by simp [hc])]
  · obtain ⟨d, e, hde⟩ := insertOrdered_error accept c hc dest
    exact ⟨e, by rw [loadChunksOrdered, hde]⟩

/-- C1 witness: the amended claim at a concrete rejected record/chunk. -/
theorem write_failure_tolerance_witness :
    loadRecords rejAccept [] 0 (rejRecord :: [okRecord])
        = loadRecords rejAccept [] 0 [okRecord]
    ∧ loadChunks rejAccept [] 0 ([rejRecord] :: [[okRecord]])
        = loadChunks rejAccept ([] ++ [rejRecord].filter rejAccept) 0 [[okRecord]]
    ∧ ∃ e, loadChunksOrdered rejAccept [] 0 ([rejRecord] :: [[okRecord]])
        = Except.error e :=
  write_failure_tolerance_amended rejAccept [] 0 rejRecord [okRecord]
    [rejRecord] [[okRecord]] (by decide) (by decide)

/-- C2: with the connection string unset, or with the connection attempt
failing, the process exits with code 1, no site directory is visited, no
archive is opened and no outcome is produced; and a non-zero exit can only
arise from those two conditions. -/
theorem fatal_connection_only (env : Env) (siteFolders : List String)
    (h : env.mongoUri = none ∨ env.connectOk = false) :
    (importDbfsData env siteFolders).exitCode = 1
    ∧ (importDbfsData env siteFolders).summary = []
    ∧ (importDbfsData env siteFolders).visited = []
    ∧ (importDbfsData env siteFolders).opened = []
    ∧ ∀ (env2 : Env) (sf2 : List String),
        (importDbfsData env2 sf2).exitCode ≠ 0 →
          env2.mongoUri = none ∨ env2.connectOk = false := by
  have hmain : importDbfsData env siteFolders = ⟨1, [], [], [], false⟩ := by
    rcases h with h | h
    · simp [importDbfsData, h]
    · cases hu : env.mongoUri with
      | none => simp [importDbfsData, hu]
      | some u => simp [importDbfsData, hu, h]
  refine ⟨by rw [hmain], by rw [hmain], by rw [hmain], by rw [hmain], ?_⟩
  intro env2 sf2 hne
  cases hu : env2.mongoUri with
  | none => exact Or.inl rfl
  | some u =>
    by_cases hc : env2.connectOk
    · exfalso
      apply hne
      cases h2 : processFolders env2 ⟨[], [], []⟩ sf2 with
      | error e => simp [importDbfsData, hu, hc, h2]
      | ok tr => simp [importDbfsData, hu, hc, h2]
    · exact Or.inr (by simpa using hc)

/-- C2 witness: the unset-connection-string condition at a concrete
environment. -/
theorem fatal_connection_only_witness :
    (importDbfsData envC folders).exitCode = 1
    ∧ (importDbfsData envC folders).summary = []
    ∧ (importDbfsData envC folders).visited = []
    ∧ (importDbfsData envC folders).opened = []
    ∧ ∀ (env2 : Env) (sf2 : List String),
        (importDbfsData env2 sf2).exitCode ≠ 0 →
          env2.mongoUri = none ∨ env2.connectOk = false :=
  fatal_connection_only envC folders (Or.inl rfl)

/-- C3 counterexample: on a record with a duplicated field name, the
`Object.fromEntries`-based sanitizer of `src/unnamed/part_001` keeps the
value of the LAST occurrence, while `sanitizeRecord` of
`src/scripts/dbfToMongo.js` keeps the first — refuting "keeping the value
of the first occurrence" for the cited part_001 sanitizer. -/
theorem sanitizer_first_wins_cex :
    sanitizeRecordFE [("A", JSValue.num 1), ("A", JSValue.num 2)]
        = [("A", JSValue.num 2)]
    ∧ sanitizeRecord [("A", JSValue.num 1), ("A", JSValue.num 2)]
        = [("A", JSValue.num 1)] := by
  constructor <;> rfl

/-- C3 (amended): every sanitizer variant emits each field name at most
once; the `dbfToMongo.js` sanitizer keeps the first occurrence's
(sanitized) value, while the `fromEntries`-based sanitizer of
`part_001`/`part_002`/`part_003` keeps the last occurrence's
(sanitized) value. -/
theorem sanitizer_duplicate_policy_amended (r : RawRecord) :
    (keys (sanitizeRecord r)).Nodup
    ∧ (keys (sanitizeRecordFE r)).Nodup
    ∧ (∀ k, getField (sanitizeRecord r) k = (getField r k).map sanitizeValue)
    ∧ (∀ k, getField (sanitizeRecordFE r) k = (getFieldLast r k).map sanitizeValue) :=
  ⟨sanitizeRecord_keys_nodup r, sanitizeRecordFE_keys_nodup r,
   fun k => sanitizeRecord_getField r k, fun k => sanitizeRecordFE_getField r k⟩

/-- C4: in both sanitizer variants every retained field value is the
sanitized original: NaN becomes the number 0 and every other value (string,
valid number, boolean, null) passes through unchanged; consequently no
field of a sanitized record holds NaN. -/
theorem sanitizer_nan_to_zero (r : RawRecord) :
    (∀ k v, getField (sanitizeRecord r) k = some v → v ≠ JSValue.nan)
    ∧ (∀ k v, getField (sanitizeRecordFE r) k = some v → v ≠ JSValue.nan)
    ∧ sanitizeValue JSValue.nan = JSValue.num 0
    ∧ (∀ v : JSValue, v ≠ JSValue.nan → sanitizeValue v = v) := by
  refine ⟨?_, ?_, rfl, fun v hv => sanitizeValue_of_ne_nan v hv⟩
  · intro k v hk
    rw [sanitizeRecord_getField] at hk
    cases hg : getField r k with
    | none => rw [hg] at hk; cases hk
    | some v0 =>
      rw [hg] at hk
      have hk2 : some (sanitizeValue v0) = some v := hk
      cases hk2
      exact sanitizeValue_ne_nan v0
  · intro k v hk
    rw [sanitizeRecordFE_getField] at hk
    cases hg : getFieldLast r k with
    | none => rw [hg] at hk; cases hk
    | some v0 =>
      rw [hg] at hk
      have hk2 : some (sanitizeValue v0) = some v := hk
      cases hk2
      exact sanitizeValue_ne_nan v0

/-- C5: when the archive path does not exist, both `processFile` variants
return a zero-count outcome with the missing-archive condition recorded and
leave the destination exactly as it was — in particular the delete of
existing rows is not executed. -/
theorem missing_archive_frame (fsys : FileSystem) (accept : SRecord → Bool)
    (dest : List SRecord) (p : String) (h : lookupFS fsys p = none) :
    processFile fsys accept dest p = Except.ok (dest, ⟨0, 0, true, 0⟩)
    ∧ processFileBatched fsys accept dest p = Except.ok (dest, ⟨0, 0, true, 0⟩) := by
  constructor
  · rw [processFile, h]
  · rw [processFileBatched, h]

/-- C5 witness: a missing archive over an empty file system, with a
destination that already holds a record. -/
theorem missing_archive_frame_witness :
    processFile [] rejAccept [okRecord] "AVB/article.dbf"
        = Except.ok ([okRecord], ⟨0, 0, true, 0⟩)
    ∧ processFileBatched [] rejAccept [okRecord] "AVB/article.dbf"
        = Except.ok ([okRecord], ⟨0, 0, true, 0⟩) :=
  missing_archive_frame [] rejAccept [okRecord] "AVB/article.dbf" rfl

/-- C6: for any chunk size C ≥ 1, loading a record list in chunks of size C
with unordered writes leaves the destination with exactly the accepted
records appended — the same final inserted set as loading all records in a
single chunk, and the same as the per-record variant (so the C = 1 and
C = 1000 loaders are equivalent in final destination contents). -/
theorem chunking_equivalence (accept : SRecord → Bool) (srecords : List SRecord)
    (C : Nat) (dest : List SRecord) (h : 1 ≤ C) :
    (loadChunks accept dest 0 (chunksOf C srecords)).1 = dest ++ srecords.filter accept
    ∧ (loadChunks accept dest 0 [srecords]).1 = dest ++ srecords.filter accept
    ∧ (loadRecords accept dest 0 srecords).1 = dest ++ srecords.filter accept := by
  refine ⟨?_, ?_, ?_⟩
  · rw [loadChunks_fst, chunksOf_flatten]
  · rw [loadChunks_fst]
    simp
  · rw [loadRecords_fst]

/-- C6 witness: chunk size 2 over three records, one rejected. -/
theorem chunking_equivalence_witness :
    (loadChunks rejAccept [] 0 (chunksOf 2 [okRecord, rejRecord, okRecord])).1
        = [] ++ [okRecord, rejRecord, okRecord].filter rejAccept
    ∧ (loadChunks rejAccept [] 0 [[okRecord, rejRecord, okRecord]]).1
        = [] ++ [okRecord, rejRecord, okRecord].filter rejAccept
    ∧ (loadRecords rejAccept [] 0 [okRecord, rejRecord, okRecord]).1
        = [] ++ [okRecord, rejRecord, okRecord].filter rejAccept :=
  chunking_equivalence rejAccept [okRecord, rejRecord, okRecord] 2 [] (by decide)

/-- C7: for an archive of N records the per-record loader's inserted count
is exactly the number of accepted records (it is incremented only by
successful inserts), hence at most N, and both the per-record loader and
the 1000-chunk loader reach exactly N precisely when the destination
accepts every record. -/
theorem inserted_count_bounds (accept : SRecord → Bool) (srecords : List SRecord)
    (dest : List SRecord) :
    (loadRecords accept dest 0 srecords).2 = srecords.countP accept
    ∧ (loadRecords accept dest 0 srecords).2 ≤ srecords.length
    ∧ (loadChunks accept dest 0 (chunksOf 1000 srecords)).2 ≤ srecords.length
    ∧ ((loadRecords accept dest 0 srecords).2 = srecords.length
        ↔ ∀ r ∈ srecords, accept r = true)
    ∧ ((loadChunks accept dest 0 (chunksOf 1000 srecords)).2 = srecords.length
        ↔ ∀ r ∈ srecords, accept r = true) := by
  have hcount : (loadRecords accept dest 0 srecords).2 = srecords.countP accept := by
    rw [loadRecords_snd]
    simp
  have hchunk : (loadChunks accept dest 0 (chunksOf 1000 srecords)).2
      = okChunkCount accept (chunksOf 1000 srecords) := by
    rw [loadChunks_snd]
    simp
  have hflat : (chunksOf 1000 srecords).flatten = srecords := chunksOf_flatten 1000 srecords
  refine ⟨hcount, ?_, ?_, ?_, ?_⟩
  · rw [hcount]
    exact List.countP_le_length accept
  · rw [hchunk]
    have := okChunkCount_le accept (chunksOf 1000 srecords)
    rw [hflat] at this
    exact this
  · rw [hcount]
    exact List.countP_eq_length
  · rw [hchunk]
    have := okChunkCount_eq_iff accept (chunksOf 1000 srecords)
    rw [hflat] at this
    exact this

/-- C8 counterexample: `logError` does not wrap `fs.appendFileSync` in
`try`/`catch`, so a sink write failure raises to the caller — refuting
"never raises ... a failure to write to the sink is itself swallowed
inside the logging call". -/
theorem logError_raises_cex :
    logError "2026-01-01T00:00:00.000Z" "boom" ⟨[], false⟩
      = Except.error "EACCES" := rfl

/-- C8 (amended): `logError` appends exactly one timestamped line
(`timestamp - message`) to the sink when the sink is writable; when the
sink write fails, the failure is NOT swallowed inside the call — it
propagates to the caller. -/
theorem logError_behavior_amended (now message : String) (sink : ErrorSink) :
    (sink.writable = true →
      logError now message sink
        = Except.ok ⟨sink.lines ++ [now ++ " - " ++ message ++ "\n"], true⟩)
    ∧ (sink.writable = false →
      logError now message sink = Except.error "EACCES") := by
  constructor
  · intro h
    rw [logError, appendFileSync, if_pos h, h]
  · intro h
    rw [logError, appendFileSync, if_neg (by simp [h])]

/-- C9: a site whose directory is absent is skipped with a warning: the run
result is identical to the run over the site list without it (so every
other site's outcomes are unchanged), the summary carries no entry for the
missing site, and the process exits with code 0. -/
theorem missing_site_frame (env : Env) (l1 l2 : List String) (zz : String)
    (u : String) (h : env.dirExists zz = false) (hu : env.mongoUri = some u)
    (hc : env.connectOk = true) :
    importDbfsData env (l1 ++ zz :: l2) = importDbfsData env (l1 ++ l2)
    ∧ (∀ e ∈ (importDbfsData env (l1 ++ zz :: l2)).summary, e.1 ≠ zz)
    ∧ (importDbfsData env (l1 ++ zz :: l2)).exitCode = 0 := by
  have hskip := processFolders_skip env zz h l1 ⟨[], [], []⟩ l2
  refine ⟨?_, ?_, ?_⟩
  · unfold importDbfsData
    rw [hskip]
  · intro e he heq
    cases hpf : processFolders env ⟨[], [], []⟩ (l1 ++ zz :: l2) with
    | error er =>
      rw [show importDbfsData env (l1 ++ zz :: l2) = ⟨0, [], [], [], true⟩ by
        simp [importDbfsData, hu, hc, hpf]] at he
      simp at he
    | ok tr =>
      rw [show importDbfsData env (l1 ++ zz :: l2)
          = ⟨0, tr.summary, tr.visited, tr.opened, false⟩ by
        simp [importDbfsData, hu, hc, hpf]] at he
      rcases processFolders_summary env (l1 ++ zz :: l2) ⟨[], [], []⟩ tr hpf e he
        with h1 | h1
      · simp at h1
      · rw [heq] at h1
        rw [h1] at h
        cases h
  · cases hpf : processFolders env ⟨[], [], []⟩ (l1 ++ zz :: l2) with
    | error er => simp [importDbfsData, hu, hc, hpf]
    | ok tr => simp [importDbfsData, hu, hc, hpf]

/-- C9 witness: the site "ZZ" with no directory, after the existing site
"AVB", in a connected environment. -/
theorem missing_site_frame_witness :
    importDbfsData envA (["AVB"] ++ "ZZ" :: [])
        = importDbfsData envA (["AVB"] ++ [])
    ∧ (∀ e ∈ (importDbfsData envA (["AVB"] ++ "ZZ" :: [])).summary, e.1 ≠ "ZZ")
    ∧ (importDbfsData envA (["AVB"] ++ "ZZ" :: [])).exitCode = 0 :=
  missing_site_frame envA ["AVB"] [] "ZZ" "mongodb://localhost" rfl rfl rfl

/-- C10: when the connection succeeds and an exception escapes the site
loop (e.g. an archive open error), the orchestrator catches it, logs it as
a critical error, and the `finally` block exits the process with the
default code 0; a non-zero exit arises only from the configuration check
or the connection step. -/
theorem critical_error_exit_zero (env : Env) (siteFolders : List String)
    (u e : String) (hu : env.mongoUri = some u) (hc : env.connectOk = true)
    (he : processFolders env ⟨[], [], []⟩ siteFolders = Except.error e) :
    (importDbfsData env siteFolders).exitCode = 0
    ∧ (importDbfsData env siteFolders).criticalLogged = true := by
  constructor <;> simp [importDbfsData, hu, hc, he]

/-- C10 witness: a run whose only archive raises when opened. -/
theorem critical_error_exit_zero_witness :
    (importDbfsData envB ["AVB"]).exitCode = 0
    ∧ (importDbfsData envB ["AVB"]).criticalLogged = true :=
  critical_error_exit_zero envB ["AVB"] "mongodb://localhost" "open failed"
    rfl rfl (by rfl)
